import Mathlib

/-!
Verification development for the OptoFlood forwarder core
(repository `flooding`): the temporary FIB (`src/NFD/daemon/table/tfib.cpp`),
the flood controller (`src/NFD/daemon/fw/optoflood-forwarder-extension.cpp`)
and the wire codec (`src/ndn-cxx/ndn-cxx/optoflood.hpp`), shallowly embedded
as executable Lean definitions, with theorems settling the specified
properties.
-/

namespace Flooding

/-! ## Byte-level integer encoding

Model of ndn-cxx `prependNonNegativeInteger` / `readNonNegativeInteger`:
big-endian, width 1/2/4/8 chosen minimally.  Bytes are `Nat` values < 256. -/

/-- Big-endian encoding of `v` on exactly `w` bytes (most significant first). -/
def natToBE : Nat → Nat → List Nat
  | 0, _ => []
  | w + 1, v => natToBE w (v / 256) ++ [v % 256]

/-- Big-endian decoding of a byte list. -/
def beBytesToNat (bs : List Nat) : Nat :=
  bs.foldl (fun acc b => acc * 256 + b) 0

theorem length_natToBE (w v : Nat) : (natToBE w v).length = w := by
  induction w generalizing v with
  | zero => rfl
  | succ w ih => simp [natToBE, ih]

theorem beBytesToNat_append_singleton (bs : List Nat) (b : Nat) :
    beBytesToNat (bs ++ [b]) = beBytesToNat bs * 256 + b := by
  simp [beBytesToNat, List.foldl_append]

theorem beBytesToNat_natToBE (w v : Nat) (h : v < 256 ^ w) :
    beBytesToNat (natToBE w v) = v := by
  induction w generalizing v with
  | zero =>
    simp [natToBE, beBytesToNat]
    omega
  | succ w ih =>
    rw [natToBE, beBytesToNat_append_singleton, ih]
    · omega
    · rw [Nat.div_lt_iff_lt_mul (by norm_num)]
      calc v < 256 ^ (w + 1) := h
        _ = 256 ^ w * 256 := by ring

/-! ## TLV blocks and the OptoFlood metadata codec

Source: `src/ndn-cxx/ndn-cxx/optoflood.hpp`.  A `Block` is a TLV element:
a type number and a value byte string.  A Data's application meta-info is a
list of blocks searched front-to-back by `findAppMetaInfo` (ndn-cxx
`MetaInfo::findAppMetaInfo` returns the first block of the given type). -/

structure Block where
  typ : Nat
  value : List Nat
deriving DecidableEq, Repr

abbrev MetaInfo := List Block

/-- ndn-cxx `MetaInfo::findAppMetaInfo`: first block with the given TLV type. -/
def findAppMetaInfo (m : MetaInfo) (t : Nat) : Option Block :=
  m.find? (fun b => b.typ == t)

/-- ndn-cxx `makeNonNegativeIntegerBlock`: minimal 1/2/4/8-byte big-endian. -/
def makeNonNegativeIntegerBlock (t v : Nat) : Block :=
  if v < 256 then ⟨t, natToBE 1 v⟩
  else if v < 65536 then ⟨t, natToBE 2 v⟩
  else if v < 4294967296 then ⟨t, natToBE 4 v⟩
  else ⟨t, natToBE 8 v⟩

/-- ndn-cxx `readNonNegativeInteger`: accepts value lengths 1/2/4/8 only,
throws `tlv::Error` otherwise (modelled as `none`). -/
def readNonNegativeInteger (b : Block) : Option Nat :=
  if b.value.length = 1 ∨ b.value.length = 2 ∨ b.value.length = 4 ∨ b.value.length = 8
  then some (beBytesToNat b.value) else none

/-- Model of `optoflood::makeMobilityFlagBlock`: `Block(tlv::MobilityFlag)`, empty value. -/
def makeMobilityFlagBlock : Block := ⟨201, []⟩

/-- Model of `optoflood::makeFloodIdBlock`. -/
def makeFloodIdBlock (floodId : Nat) : Block := makeNonNegativeIntegerBlock 202 floodId

/-- Model of `optoflood::makeNewFaceSeqBlock`. -/
def makeNewFaceSeqBlock (seq : Nat) : Block := makeNonNegativeIntegerBlock 203 seq

/-- Model of `optoflood::makeTraceHintBlock`: `makeBinaryBlock(tlv::TraceHint, ...)`. -/
def makeTraceHintBlock (hint : List Nat) : Block := ⟨204, hint⟩

/-- Model of `optoflood::hasMobilityFlag`. -/
def hasMobilityFlag (m : MetaInfo) : Bool := (findAppMetaInfo m 201).isSome

/-- Model of `optoflood::getFloodId`: read the first type-202 block as an integer. -/
def getFloodId (m : MetaInfo) : Option Nat :=
  match findAppMetaInfo m 202 with
  | some b => readNonNegativeInteger b
  | none => none

/-- Model of `optoflood::getNewFaceSeq`: read the first type-203 block as an integer and
truncate with `static_cast<uint32_t>`. -/
def getNewFaceSeq (m : MetaInfo) : Option Nat :=
  match findAppMetaInfo m 203 with
  | some b => (readNonNegativeInteger b).map (fun v => v % 4294967296)
  | none => none

/-- Model of `optoflood::getTraceHint`: returns the first type-204 block's value, but
only when `block->value_size() > 0`; a zero-length value yields `nullopt`. -/
def getTraceHint (m : MetaInfo) : Option (List Nat) :=
  match findAppMetaInfo m 204 with
  | some b => if 0 < b.value.length then some b.value else none
  | none => none

/-- Metadata encoding as performed by the producer
(`src/experiment/app/producer.cpp`, lines 280-293): `addAppMetaInfo` appends
MobilityFlag, FloodId, NewFaceSeq, TraceHint in that order, present fields
only. -/
def encodeMeta (mob : Bool) (floodId seq : Nat) (hint : Option (List Nat)) : MetaInfo :=
  (if mob then [makeMobilityFlagBlock] else [])
    ++ [makeFloodIdBlock floodId, makeNewFaceSeqBlock seq]
    ++ (match hint with | some h => [makeTraceHintBlock h] | none => [])

theorem readNonNegativeInteger_make (t v : Nat) (h : v < 2 ^ 64) :
    readNonNegativeInteger (makeNonNegativeIntegerBlock t v) = some v := by
  unfold makeNonNegativeIntegerBlock readNonNegativeInteger
  split
  · rename_i h1
    simp [length_natToBE, beBytesToNat_natToBE 1 v (by simpa using h1)]
  · split
    · rename_i h2
      simp [length_natToBE, beBytesToNat_natToBE 2 v (by norm_num at h2 ⊢; omega)]
    · split
      · rename_i h3
        simp [length_natToBE, beBytesToNat_natToBE 4 v (by norm_num at h3 ⊢; omega)]
      · simp [length_natToBE, beBytesToNat_natToBE 8 v (by norm_num at h ⊢; omega)]

theorem typ_makeNonNegativeIntegerBlock (t v : Nat) :
    (makeNonNegativeIntegerBlock t v).typ = t := by
  unfold makeNonNegativeIntegerBlock
  split
  · rfl
  · split
    · rfl
    · split <;> rfl

theorem hasMobilityFlag_encodeMeta (mob : Bool) (floodId seq : Nat)
    (hint : Option (List Nat)) :
    hasMobilityFlag (encodeMeta mob floodId seq hint) = mob := by
  have h1 := typ_makeNonNegativeIntegerBlock 202 floodId
  have h2 := typ_makeNonNegativeIntegerBlock 203 seq
  cases mob <;> cases hint <;>
    simp_all [hasMobilityFlag, encodeMeta, findAppMetaInfo, List.find?,
      makeFloodIdBlock, makeNewFaceSeqBlock, makeTraceHintBlock, makeMobilityFlagBlock]

theorem getFloodId_encodeMeta (mob : Bool) (floodId seq : Nat)
    (hint : Option (List Nat)) (h : floodId < 2 ^ 64) :
    getFloodId (encodeMeta mob floodId seq hint) = some floodId := by
  have h1 := typ_makeNonNegativeIntegerBlock 202 floodId
  have hr := readNonNegativeInteger_make 202 floodId h
  cases mob <;> cases hint <;>
    simp_all [getFloodId, encodeMeta, findAppMetaInfo, List.find?,
      makeFloodIdBlock, makeMobilityFlagBlock]

theorem getNewFaceSeq_encodeMeta (mob : Bool) (floodId seq : Nat)
    (hint : Option (List Nat)) (h : seq < 2 ^ 32) :
    getNewFaceSeq (encodeMeta mob floodId seq hint) = some seq := by
  have h1 := typ_makeNonNegativeIntegerBlock 202 floodId
  have h2 := typ_makeNonNegativeIntegerBlock 203 seq
  have hr := readNonNegativeInteger_make 203 seq (by norm_num at h ⊢; omega)
  have hmod : seq % 4294967296 = seq := Nat.mod_eq_of_lt (by norm_num at h ⊢; omega)
  by_cases hne : floodId < 256
  all_goals cases mob <;> cases hint <;>
    simp_all [getNewFaceSeq, encodeMeta, findAppMetaInfo, List.find?,
      makeFloodIdBlock, makeNewFaceSeqBlock, makeMobilityFlagBlock]

theorem getTraceHint_encodeMeta (mob : Bool) (floodId seq : Nat)
    (hint : List Nat) (h : hint ≠ []) :
    getTraceHint (encodeMeta mob floodId seq (some hint)) = some hint := by
  have h1 := typ_makeNonNegativeIntegerBlock 202 floodId
  have h2 := typ_makeNonNegativeIntegerBlock 203 seq
  have hlen : 0 < hint.length := List.length_pos.mpr h
  cases mob <;>
    simp_all [getTraceHint, encodeMeta, findAppMetaInfo, List.find?,
      makeFloodIdBlock, makeNewFaceSeqBlock, makeTraceHintBlock, makeMobilityFlagBlock]

theorem getTraceHint_encodeMeta_none (mob : Bool) (floodId seq : Nat) :
    getTraceHint (encodeMeta mob floodId seq none) = none := by
  have h1 := typ_makeNonNegativeIntegerBlock 202 floodId
  have h2 := typ_makeNonNegativeIntegerBlock 203 seq
  cases mob <;>
    simp_all [getTraceHint, encodeMeta, findAppMetaInfo, List.find?,
      makeFloodIdBlock, makeNewFaceSeqBlock, makeMobilityFlagBlock]

/-! ## Interest flood-parameters codec

`optoflood::makeInterestFloodingParameters` builds an ApplicationParameters
block (TLV type 36) by prepending: the hop limit as `205 01 <byte>`, then the
optional trace hint as `204 LL <bytes>`, then the outer type/length.  TLV
variable-length numbers follow ndn-cxx `prependVarNumber`. -/

/-- ndn-cxx `prependVarNumber` byte form: 1 byte below 253, else a marker byte
253/254/255 followed by 2/4/8 big-endian bytes. -/
def varNumber (n : Nat) : List Nat :=
  if n < 253 then [n]
  else if n < 65536 then 253 :: natToBE 2 n
  else if n < 4294967296 then 254 :: natToBE 4 n
  else 255 :: natToBE 8 n

/-- Model of `optoflood::makeInterestFloodingParameters` (optoflood.hpp lines 144-166),
as the emitted byte string; `hopLimit` is a `uint8_t`, modelled by taking the
value mod 256. -/
def makeInterestFloodingParameters (traceHint : Option (List Nat)) (hopLimit : Nat) :
    List Nat :=
  let inner :=
    (match traceHint with
     | some h => varNumber 204 ++ varNumber h.length ++ h
     | none => [])
    ++ (varNumber 205 ++ varNumber 1 ++ [hopLimit % 256])
  varNumber 36 ++ varNumber inner.length ++ inner

/-- Reader for ndn-cxx TLV variable-length numbers (inverse of `varNumber`),
returning the number and the remaining bytes. -/
def readVarNumber : List Nat → Option (Nat × List Nat)
  | [] => none
  | b :: rest =>
    if b < 253 then some (b, rest)
    else if b = 253 then
      match rest with
      | x :: y :: r => some (x * 256 + y, r)
      | _ => none
    else if b = 254 then
      match rest with
      | x1 :: x2 :: x3 :: x4 :: r => some (beBytesToNat [x1, x2, x3, x4], r)
      | _ => none
    else
      match rest with
      | x1 :: x2 :: x3 :: x4 :: x5 :: x6 :: x7 :: x8 :: r =>
        some (beBytesToNat [x1, x2, x3, x4, x5, x6, x7, x8], r)
      | _ => none

/-- Modelled from the spec: `decodeFloodParams` is declared in §4.1
("`encodeFloodParams(hopLimit, traceHint?) → bytes` / `decodeFloodParams`
symmetric; both round-trip exactly") but has no implementation in the
repository (`handleInterestFlooding` leaves parameter parsing as a stub).
Decodes the content of the ApplicationParameters block produced by
`makeInterestFloodingParameters`: an optional `204 LL <hint>` followed by the
required `205 01 <hopLimit>`. -/
def decodeFloodParamsInner (inner : List Nat) : Option (Nat × Option (List Nat)) :=
  match inner with
  | 205 :: 1 :: h :: [] => some (h, none)
  | 204 :: rest =>
    match readVarNumber rest with
    | some (len, r) =>
      if r.length = len + 3 then
        match r.drop len with
        | [205, 1, h] => some (h, some (r.take len))
        | _ => none
      else none
    | none => none
  | _ => none

/-- Modelled from the spec: outer layer of `decodeFloodParams` — check the
ApplicationParameters type (36) and length, then decode the inner fields. -/
def decodeFloodParams (bytes : List Nat) : Option (Nat × Option (List Nat)) :=
  match readVarNumber bytes with
  | some (t, r1) =>
    if t = 36 then
      match readVarNumber r1 with
      | some (len, r2) => if r2.length = len then decodeFloodParamsInner r2 else none
      | none => none
    else none
  | none => none

theorem readVarNumber_varNumber (n : Nat) (rest : List Nat) (h : n < 65536) :
    readVarNumber (varNumber n ++ rest) = some (n, rest) := by
  unfold varNumber
  split
  · rename_i h1
    simp [readVarNumber, h1]
  · have hd : n / 256 < 256 := by omega
    simp [natToBE, readVarNumber, Nat.mod_eq_of_lt hd]
    omega

theorem decodeFloodParams_make_none (hop : Nat) (hhop : hop < 256) :
    decodeFloodParams (makeInterestFloodingParameters none hop) = some (hop, none) := by
  have hm : hop % 256 = hop := Nat.mod_eq_of_lt hhop
  simp only [makeInterestFloodingParameters, hm]
  have h205 : varNumber 205 = [205] := by simp [varNumber]
  have h1 : varNumber 1 = [1] := by norm_num [varNumber]
  have h36 : varNumber 36 = [36] := by norm_num [varNumber]
  simp only [h205, h1, h36, List.nil_append, List.cons_append, List.length_cons,
    List.length_nil]
  have h3 : varNumber 3 = [3] := by norm_num [varNumber]
  simp [h3, decodeFloodParams, readVarNumber, decodeFloodParamsInner]

theorem decodeFloodParams_make_some (hint : List Nat) (hop : Nat)
    (hhop : hop < 256) (hlen : hint.length ≤ 255) :
    decodeFloodParams (makeInterestFloodingParameters (some hint) hop)
      = some (hop, some hint) := by
  have hm : hop % 256 = hop := Nat.mod_eq_of_lt hhop
  simp only [makeInterestFloodingParameters, hm]
  have h204 : varNumber 204 = [204] := by norm_num [varNumber]
  have h205 : varNumber 205 = [205] := by simp [varNumber]
  have h1 : varNumber 1 = [1] := by norm_num [varNumber]
  simp only [h204, h205, h1]
  set inner : List Nat := [204] ++ varNumber hint.length ++ hint ++ ([205] ++ [1] ++ [hop])
    with hinner
  have hinlen : inner.length = 1 + (varNumber hint.length).length + hint.length + 3 := by
    simp [hinner]
    omega
  have hinlt : inner.length < 65536 := by
    have : (varNumber hint.length).length ≤ 3 := by
      unfold varNumber
      split
      · simp
      · split
        · simp [length_natToBE]
        · omega
    omega
  have houter : makeInterestFloodingParameters (some hint) hop
      = varNumber 36 ++ varNumber inner.length ++ inner := by
    simp [makeInterestFloodingParameters, hm, h204, h205, h1, hinner]
  rw [List.append_assoc (varNumber 36)]
  rw [decodeFloodParams, readVarNumber_varNumber 36 _ (by norm_num)]
  simp only [if_pos rfl]
  rw [readVarNumber_varNumber inner.length inner hinlt]
  simp only [if_pos rfl]
  have hrest : inner = 204 :: (varNumber hint.length ++ (hint ++ [205, 1, hop])) := by
    simp [hinner]
  rw [hrest, decodeFloodParamsInner,
    readVarNumber_varNumber hint.length _ (by omega)]
  have hrl : (hint ++ [205, 1, hop]).length = hint.length + 3 := by simp
  simp only [hrl, if_pos rfl]
  have hdrop : (hint ++ [205, 1, hop]).drop hint.length = [205, 1, hop] :=
    List.drop_left hint [205, 1, hop]
  have htake : (hint ++ [205, 1, hop]).take hint.length = hint :=
    List.take_left hint [205, 1, hop]
  rw [hdrop, htake]
  simp

/-- The metadata decode interface as consumed by the forwarder: the four
accessor functions of optoflood.hpp applied to one MetaInfo. -/
def decodeMeta (m : MetaInfo) : Bool × Option Nat × Option Nat × Option (List Nat) :=
  (hasMobilityFlag m, getFloodId m, getNewFaceSeq m, getTraceHint m)

/-- C8 counterexample: the tuple (MobilityFlag, FloodId 7, NewFaceSeq 1,
TraceHint present and empty) is valid (TraceHint may be 0-255 bytes), but
decoding its encoding loses the empty TraceHint: `getTraceHint` returns `none`
because it requires `value_size() > 0`, so decode(encode(x)) differs from x. -/
theorem C8_counterexample :
    decodeMeta (encodeMeta true 7 1 (some [])) ≠ (true, some 7, some 1, some ([] : List Nat)) := by
  decide

/-- C8 (amended): decode(encode(x)) = x for the metadata codec for every valid
tuple whose TraceHint, when present, is non-empty; and for the
flood-parameters codec — the source encoder `makeInterestFloodingParameters`
paired with the decoder modelled from the spec — every valid (hopLimit,
traceHint?) pair round-trips exactly. -/
theorem C8_codec_roundTrip (mob : Bool) (floodId seq : Nat)
    (hintM pHint : Option (List Nat)) (hop : Nat)
    (hfid : floodId < 2 ^ 64) (hseq : seq < 2 ^ 32)
    (hM : ∀ h, hintM = some h → h ≠ [])
    (hhop : hop < 256) (hP : ∀ h, pHint = some h → h.length ≤ 255) :
    decodeMeta (encodeMeta mob floodId seq hintM) = (mob, some floodId, some seq, hintM)
    ∧ decodeFloodParams (makeInterestFloodingParameters pHint hop) = some (hop, pHint) := by
  constructor
  · unfold decodeMeta
    rw [hasMobilityFlag_encodeMeta, getFloodId_encodeMeta _ _ _ _ hfid,
      getNewFaceSeq_encodeMeta _ _ _ _ hseq]
    cases hintM with
    | none => rw [getTraceHint_encodeMeta_none]
    | some h => rw [getTraceHint_encodeMeta _ _ _ _ (hM h rfl)]
  · cases pHint with
    | none => exact decodeFloodParams_make_none hop hhop
    | some h => exact decodeFloodParams_make_some h hop hhop (hP h rfl)

/-- C8 witness: the amended round-trip evaluated at a concrete mobility tuple
(with a multi-byte FloodId and NewFaceSeq) and a concrete flood-params pair. -/
theorem C8_codec_roundTrip_witness :
    decodeMeta (encodeMeta true 300 70000 (some [1, 2]))
      = (true, some 300, some 70000, some [1, 2])
    ∧ decodeFloodParams (makeInterestFloodingParameters (some [9]) 3)
      = some (3, some [9]) :=
  C8_codec_roundTrip true 300 70000 (some [1, 2]) (some [9]) 3
    (by norm_num) (by norm_num)
    (by intro h hh; injection hh with e; subst e; decide)
    (by norm_num)
    (by intro h hh; injection hh with e; subst e; decide)

/-- C10: when a TraceHint TLV (type 204) is present in the MetaInfo but has a
zero-length value, `getTraceHint` returns `none` — an empty TraceHint is
indistinguishable from an absent one at the decode interface. -/
theorem C10_emptyTraceHint_invisible (m : MetaInfo) (b : Block)
    (hfind : findAppMetaInfo m 204 = some b) (hempty : b.value = []) :
    getTraceHint m = none := by
  unfold getTraceHint
  rw [hfind]
  simp [hempty]

/-- C10 witness: a MetaInfo holding exactly one empty TraceHint block. -/
theorem C10_emptyTraceHint_invisible_witness :
    getTraceHint [Block.mk 204 []] = none :=
  C10_emptyTraceHint_invisible [Block.mk 204 []] (Block.mk 204 []) (by decide) rfl

/-! ## TFIB

Source: `src/NFD/daemon/table/tfib.hpp` / `tfib.cpp`.  Names are lists of
opaque components, here `Nat`; `Name::getPrefix(-1)` is `List.dropLast`.
Time instants are `Nat` milliseconds, passed to each operation explicitly in
place of `time::steady_clock::now()`.  The `std::map<Name, unique_ptr<Entry>>`
is embedded as a list of entries with pairwise-distinct keys; `m_entries.find`
is `List.find?` on the key. -/

abbrev Name := List Nat

/-- Model of `Entry::DEFAULT_LIFETIME` (tfib.hpp line 81): 1000 ms. -/
def DEFAULT_LIFETIME : Nat := 1000

structure TfibEntry where
  pfx : Name
  face : Nat
  newFaceSeq : Nat
  floodId : Nat
  expiry : Nat
deriving DecidableEq, Repr

abbrev Tfib := List TfibEntry

/-- Model of `Entry::isExpired`: `now() >= m_expiry`. -/
def TfibEntry.isExpired (e : TfibEntry) (now : Nat) : Bool := decide (e.expiry ≤ now)

/-- Model of `m_entries.find(p)`: the (unique) entry keyed by `p`, if any. -/
def tfibFind (t : Tfib) (p : Name) : Option TfibEntry :=
  t.find? (fun e => e.pfx == p)

/-- Model of `Tfib::findExactMatch` (tfib.cpp lines 59-67): the entry for `p` when
present and not expired, else null. -/
def findExactMatch (t : Tfib) (now : Nat) (p : Name) : Option TfibEntry :=
  match tfibFind t p with
  | some e => if e.isExpired now then none else some e
  | none => none

/-- The while-loop of `Tfib::findLongestPrefixMatch` (tfib.cpp lines 47-54):
drop the last component, return the entry if present and not expired
(the loop body repeats the find-and-expiry check of `findExactMatch`),
otherwise keep shortening until the name is empty. -/
def lpmLoop (t : Tfib) (now : Nat) (name : Name) : Option TfibEntry :=
  if h : name = [] then none
  else
    match findExactMatch t now name.dropLast with
    | some e => some e
    | none => lpmLoop t now name.dropLast
termination_by name.length
decreasing_by
  simp only [List.length_dropLast]
  have : 0 < name.length := List.length_pos.mpr h
  omega

/-- Model of `Tfib::findLongestPrefixMatch` (tfib.cpp lines 36-57): exact match first,
then the shortening loop. -/
def findLongestPrefixMatch (t : Tfib) (now : Nat) (name : Name) : Option TfibEntry :=
  match findExactMatch t now name with
  | some e => some e
  | none => lpmLoop t now name

/-- Model of `Tfib::insert` (tfib.cpp lines 69-99).  Returns the new table and whether
the `afterInsert` signal was emitted.  A fresh or replacing entry is built by
the `Entry` constructor with `expiry = now + DEFAULT_LIFETIME`; the refresh
branch only calls `Entry::refresh`. -/
def tfibInsert (t : Tfib) (now : Nat) (p : Name) (face seq floodId : Nat) :
    Tfib × Bool :=
  match tfibFind t p with
  | some e =>
    if e.newFaceSeq < seq ∨ floodId ≠ e.floodId then
      (t.map (fun x => if x.pfx == p then ⟨p, face, seq, floodId, now + DEFAULT_LIFETIME⟩ else x),
       true)
    else
      (t.map (fun x => if x.pfx == p then { x with expiry := now + DEFAULT_LIFETIME } else x),
       false)
  | none => (t ++ [⟨p, face, seq, floodId, now + DEFAULT_LIFETIME⟩], true)

theorem tfibFind_some {t : Tfib} {p : Name} {e : TfibEntry}
    (h : tfibFind t p = some e) : e ∈ t ∧ e.pfx = p :=
  ⟨List.mem_of_find?_eq_some h, by simpa using List.find?_some h⟩

theorem tfibFind_of_mem_nodup {t : Tfib} {e : TfibEntry}
    (hnd : (t.map TfibEntry.pfx).Nodup) (he : e ∈ t) :
    tfibFind t e.pfx = some e := by
  induction t with
  | nil => cases he
  | cons x xs ih =>
    rcases List.mem_cons.mp he with rfl | hmem
    · simp [tfibFind, List.find?]
    · have hx : x.pfx ≠ e.pfx := by
        intro hcontra
        have : x.pfx ∈ xs.map TfibEntry.pfx := hcontra ▸ List.mem_map_of_mem _ hmem
        exact (List.nodup_cons.mp (by simpa using hnd)).1 this
      have := ih (List.nodup_cons.mp (by simpa using hnd)).2 hmem
      simpa [tfibFind, List.find?, beq_eq_false_iff_ne.mpr hx] using this

theorem tfibFind_map_keyFixed (t : Tfib) (g : TfibEntry → TfibEntry)
    (hg : ∀ x, (g x).pfx = x.pfx) (q : Name) :
    tfibFind (t.map g) q = Option.map g (tfibFind t q) := by
  induction t with
  | nil => rfl
  | cons x xs ih =>
    by_cases hx : x.pfx = q
    · simp [tfibFind, List.find?, hg, hx]
    · simpa [tfibFind, List.find?, hg, beq_eq_false_iff_ne.mpr hx] using ih

/-- C1: `Tfib::insert` semantics.  With no entry for the prefix, a new entry
with `expiry = now + DEFAULT_LIFETIME` is appended and `afterInsert` is
emitted.  With an existing entry `e`, the entry is replaced (and `afterInsert`
emitted) iff `seq > e.newFaceSeq` or `floodId ≠ e.floodId`; otherwise only its
expiry is refreshed and no signal is emitted.  Entries for other prefixes are
untouched in every case. -/
theorem C1_insert_semantics (t : Tfib) (now : Nat) (p : Name) (face seq fid : Nat) :
    (tfibFind t p = none →
      tfibInsert t now p face seq fid
        = (t ++ [⟨p, face, seq, fid, now + DEFAULT_LIFETIME⟩], true))
    ∧ (∀ e, tfibFind t p = some e →
        ((e.newFaceSeq < seq ∨ fid ≠ e.floodId) →
          (tfibInsert t now p face seq fid).2 = true ∧
          tfibFind (tfibInsert t now p face seq fid).1 p
            = some ⟨p, face, seq, fid, now + DEFAULT_LIFETIME⟩)
        ∧ (¬(e.newFaceSeq < seq ∨ fid ≠ e.floodId) →
          (tfibInsert t now p face seq fid).2 = false ∧
          tfibFind (tfibInsert t now p face seq fid).1 p
            = some { e with expiry := now + DEFAULT_LIFETIME }))
    ∧ (∀ q, q ≠ p →
        tfibFind (tfibInsert t now p face seq fid).1 q = tfibFind t q) := by
  refine ⟨fun hnone => by simp [tfibInsert, hnone], fun e he => ?_, fun q hq => ?_⟩
  · constructor
    · intro hcond
      have hrepl : tfibInsert t now p face seq fid
          = (t.map (fun x => if x.pfx == p then ⟨p, face, seq, fid, now + DEFAULT_LIFETIME⟩ else x),
             true) := by
        simp [tfibInsert, he, hcond]
      refine ⟨by rw [hrepl], ?_⟩
      rw [hrepl]
      have hkey : ∀ x : TfibEntry,
          ((fun x => if x.pfx == p then
              (⟨p, face, seq, fid, now + DEFAULT_LIFETIME⟩ : TfibEntry) else x) x).pfx
            = x.pfx := by
        intro x
        by_cases hx : x.pfx = p
        · simp [hx]
        · simp [beq_eq_false_iff_ne.mpr hx]
      rw [tfibFind_map_keyFixed t _ hkey p, he]
      simp [(tfibFind_some he).2]
    · intro hcond
      have href : tfibInsert t now p face seq fid
          = (t.map (fun x => if x.pfx == p then { x with expiry := now + DEFAULT_LIFETIME } else x),
             false) := by
        simp only [tfibInsert, he]
        rw [if_neg hcond]
      refine ⟨by rw [href], ?_⟩
      rw [href]
      have hkey : ∀ x : TfibEntry,
          ((fun x => if x.pfx == p then { x with expiry := now + DEFAULT_LIFETIME } else x) x).pfx
            = x.pfx := by
        intro x
        by_cases hx : x.pfx = p
        · simp [hx]
        · simp [beq_eq_false_iff_ne.mpr hx]
      rw [tfibFind_map_keyFixed t _ hkey p, he]
      simp [(tfibFind_some he).2]
  · cases hf : tfibFind t p with
    | none =>
      simp only [tfibInsert, hf]
      unfold tfibFind
      rw [List.find?_append]
      have : List.find? (fun e => e.pfx == q)
          [(⟨p, face, seq, fid, now + DEFAULT_LIFETIME⟩ : TfibEntry)] = none := by
        simp [List.find?, beq_eq_false_iff_ne.mpr (fun h => hq h.symm)]
      simp [this, tfibFind]
    | some e =>
      have hkey1 : ∀ x : TfibEntry,
          ((fun x => if x.pfx == p then
              (⟨p, face, seq, fid, now + DEFAULT_LIFETIME⟩ : TfibEntry) else x) x).pfx
            = x.pfx := by
        intro x
        by_cases hx : x.pfx = p
        · simp [hx]
        · simp [beq_eq_false_iff_ne.mpr hx]
      have hkey2 : ∀ x : TfibEntry,
          ((fun x => if x.pfx == p then { x with expiry := now + DEFAULT_LIFETIME } else x) x).pfx
            = x.pfx := by
        intro x
        by_cases hx : x.pfx = p
        · simp [hx]
        · simp [beq_eq_false_iff_ne.mpr hx]
      simp only [tfibInsert, hf]
      split
      · rw [tfibFind_map_keyFixed t _ hkey1 q]
        cases hfq : tfibFind t q with
        | none => rfl
        | some e' =>
          have hpfx := (tfibFind_some hfq).2
          simp [Option.map, hpfx]
          intro h
          exact absurd h hq
      · rw [tfibFind_map_keyFixed t _ hkey2 q]
        cases hfq : tfibFind t q with
        | none => rfl
        | some e' =>
          have hpfx := (tfibFind_some hfq).2
          simp [Option.map, hpfx]
          intro h
          exact absurd h hq

/-- C1 witness: the refresh branch on a concrete table — same floodId and a
non-greater sequence refresh the expiry without a signal. -/
theorem C1_insert_semantics_witness :
    (tfibInsert [⟨[1], 9, 5, 42, 100⟩] 700 [1] 8 5 42).2 = false ∧
    tfibFind (tfibInsert [⟨[1], 9, 5, 42, 100⟩] 700 [1] 8 5 42).1 [1]
      = some ⟨[1], 9, 5, 42, 1700⟩ :=
  ((C1_insert_semantics [⟨[1], 9, 5, 42, 100⟩] 700 [1] 8 5 42).2.1
      ⟨[1], 9, 5, 42, 100⟩ (by decide)).2 (by decide)

/-! Characterisation of `findLongestPrefixMatch`: the code scans the
candidate key set `name.take k` for `k = name.length` down to `0`, returning
the first present, non-expired entry.  `scanPrefixes` makes that scan order
explicit for the proofs. -/

def scanPrefixes (t : Tfib) (now : Nat) (name : Name) : Nat → Option TfibEntry
  | 0 => findExactMatch t now (name.take 0)
  | k + 1 =>
    match findExactMatch t now (name.take (k + 1)) with
    | some e => some e
    | none => scanPrefixes t now name k

theorem scanPrefixes_congr (t : Tfib) (now : Nat) (n n' : Name) (k : Nat)
    (h : ∀ j, j ≤ k → n.take j = n'.take j) :
    scanPrefixes t now n k = scanPrefixes t now n' k := by
  induction k with
  | zero => simp [scanPrefixes, h 0 (by omega)]
  | succ k ih =>
    simp only [scanPrefixes, h (k + 1) (by omega)]
    rw [ih (fun j hj => h j (by omega))]

theorem lpmLoop_eq_scanPrefixes (t : Tfib) (now : Nat) :
    ∀ (k : Nat) (n : Name), n.length = k + 1 →
      lpmLoop t now n = scanPrefixes t now n k := by
  intro k
  induction k with
  | zero =>
    intro n hn
    have hne : n ≠ [] := by
      intro hcontra
      rw [hcontra] at hn
      simp at hn
    rw [lpmLoop, dif_neg hne]
    have hd : n.dropLast = n.take 0 := by
      rw [List.dropLast_eq_take, hn]
    rw [hd]
    cases hfe : findExactMatch t now (n.take 0) with
    | some e => simp only [scanPrefixes, hfe]
    | none =>
      simp only [scanPrefixes, hfe]
      rw [List.take_zero, lpmLoop]
      simp
  | succ k ih =>
    intro n hn
    have hne : n ≠ [] := by
      intro hcontra
      rw [hcontra] at hn
      simp at hn
    rw [lpmLoop, dif_neg hne]
    have hd : n.dropLast = n.take (k + 1) := by
      rw [List.dropLast_eq_take, hn]
      norm_num
    have hlen : n.dropLast.length = k + 1 := by
      rw [List.length_dropLast, hn]
      omega
    have hloop := ih n.dropLast hlen
    have hscan : scanPrefixes t now n.dropLast k = scanPrefixes t now n k := by
      refine scanPrefixes_congr t now n.dropLast n k (fun j hj => ?_)
      rw [hd, List.take_take]
      congr 1
      omega
    rw [hd] at hloop hscan ⊢
    cases hfe : findExactMatch t now (n.take (k + 1)) with
    | some e => simp [scanPrefixes, hfe]
    | none =>
      simp only [scanPrefixes, hfe]
      rw [← hd] at hloop ⊢
      rw [hloop, hd, hscan]

theorem findLongestPrefixMatch_eq_scanPrefixes (t : Tfib) (now : Nat) (n : Name) :
    findLongestPrefixMatch t now n = scanPrefixes t now n n.length := by
  cases hn : n with
  | nil =>
    simp only [findLongestPrefixMatch, scanPrefixes, List.length_nil, List.take_nil]
    cases hfe : findExactMatch t now [] with
    | some e => simp [hfe, List.take]
    | none => simp [hfe, lpmLoop, List.take]
  | cons c cs =>
    rw [← hn]
    have hlen : n.length = cs.length + 1 := by rw [hn]; simp
    simp only [findLongestPrefixMatch, hlen, scanPrefixes]
    rw [show n.take (cs.length + 1) = n by rw [← hlen]; exact List.take_length n]
    cases hfe : findExactMatch t now n with
    | some e => simp
    | none =>
      simp only
      exact lpmLoop_eq_scanPrefixes t now cs.length n hlen

theorem findExactMatch_some {t : Tfib} {now : Nat} {p : Name} {e : TfibEntry}
    (h : findExactMatch t now p = some e) :
    e ∈ t ∧ e.pfx = p ∧ e.isExpired now = false := by
  cases hf : tfibFind t p with
  | none => simp [findExactMatch, hf] at h
  | some e' =>
    simp only [findExactMatch, hf] at h
    by_cases hx : e'.isExpired now = true
    · simp [hx] at h
    · rw [if_neg hx] at h
      have he := Option.some.inj h
      subst he
      exact ⟨(tfibFind_some hf).1, (tfibFind_some hf).2, by simpa using hx⟩

theorem findExactMatch_of_entry {t : Tfib} {now : Nat} {e : TfibEntry}
    (hnd : (t.map TfibEntry.pfx).Nodup) (he : e ∈ t)
    (hexp : e.isExpired now = false) :
    findExactMatch t now e.pfx = some e := by
  unfold findExactMatch
  rw [tfibFind_of_mem_nodup hnd he]
  simp [hexp]

theorem findExactMatch_none {t : Tfib} {now : Nat} {p : Name}
    (hnd : (t.map TfibEntry.pfx).Nodup)
    (h : findExactMatch t now p = none) :
    ∀ e ∈ t, e.pfx = p → e.isExpired now = true := by
  intro e he hp
  by_cases hx : e.isExpired now
  · exact hx
  · have := findExactMatch_of_entry hnd he (by simpa using hx)
    rw [hp] at this
    rw [this] at h
    cases h

theorem scanPrefixes_none {t : Tfib} {now : Nat} {n : Name} {k : Nat}
    (h : scanPrefixes t now n k = none) :
    ∀ j, j ≤ k → findExactMatch t now (n.take j) = none := by
  induction k with
  | zero =>
    intro j hj
    interval_cases j
    simpa [scanPrefixes] using h
  | succ k ih =>
    intro j hj
    rcases Nat.lt_or_ge j (k + 1) with hlt | hge
    · cases hfe : findExactMatch t now (n.take (k + 1)) with
      | some e => simp [scanPrefixes, hfe] at h
      | none =>
        simp only [scanPrefixes, hfe] at h
        exact ih h j (by omega)
    · have hj1 : j = k + 1 := by omega
      subst hj1
      cases hfe : findExactMatch t now (n.take (k + 1)) with
      | some e => simp [scanPrefixes, hfe] at h
      | none => rfl

theorem scanPrefixes_some {t : Tfib} {now : Nat} {n : Name} {k : Nat} {e : TfibEntry}
    (h : scanPrefixes t now n k = some e) :
    ∃ j, j ≤ k ∧ findExactMatch t now (n.take j) = some e ∧
      ∀ i, j < i → i ≤ k → findExactMatch t now (n.take i) = none := by
  induction k with
  | zero =>
    refine ⟨0, le_refl 0, by simpa [scanPrefixes] using h, fun i hi hi' => by omega⟩
  | succ k ih =>
    cases hfe : findExactMatch t now (n.take (k + 1)) with
    | some e' =>
      have he : e' = e := by
        simp only [scanPrefixes, hfe] at h
        exact Option.some_injective _ h
      subst he
      exact ⟨k + 1, le_refl _, hfe, fun i hi hi' => by omega⟩
    | none =>
      simp only [scanPrefixes, hfe] at h
      obtain ⟨j, hj, hjf, hmax⟩ := ih h
      refine ⟨j, by omega, hjf, fun i hi hi' => ?_⟩
      rcases Nat.lt_or_ge i (k + 1) with hlt | hge
      · exact hmax i hi (by omega)
      · have : i = k + 1 := by omega
        subst this
        exact hfe

/-- C2: LPM correctness and expiry invisibility.  On a table with distinct
keys (a `std::map` invariant): any returned entry is in the table, its key is
an ordered name-component path of the looked-up name, it is non-expired, and
no non-expired entry with a longer matching key exists (so an exact match
beats every proper one); if any non-expired matching entry exists the lookup
succeeds; and an entry past its expiry is never returned, swept or not. -/
theorem C2_lpm_correct (t : Tfib) (now : Nat) (n : Name)
    (hnd : (t.map TfibEntry.pfx).Nodup) :
    (∀ e, findLongestPrefixMatch t now n = some e →
      e ∈ t ∧ e.pfx = n.take e.pfx.length ∧ e.isExpired now = false ∧
      ∀ e' ∈ t, e'.pfx = n.take e'.pfx.length → e'.isExpired now = false →
        e'.pfx.length ≤ e.pfx.length)
    ∧ (∀ e ∈ t, e.pfx = n.take e.pfx.length → e.isExpired now = false →
        findLongestPrefixMatch t now n ≠ none)
    ∧ (∀ e ∈ t, e.expiry < now → findLongestPrefixMatch t now n ≠ some e) := by
  have hlenle : ∀ e' : TfibEntry, e'.pfx = n.take e'.pfx.length →
      e'.pfx.length ≤ n.length := by
    intro e' hp
    by_contra hcontra
    have h1 : (n.take e'.pfx.length).length = n.length := by
      rw [List.length_take]
      omega
    rw [← hp] at h1
    omega
  refine ⟨fun e hsome => ?_, fun e he hp hexp hnone => ?_, fun e he hlt hsome => ?_⟩
  · rw [findLongestPrefixMatch_eq_scanPrefixes] at hsome
    obtain ⟨j, hj, hjf, hmax⟩ := scanPrefixes_some hsome
    obtain ⟨hmem, hpfx, hexp⟩ := findExactMatch_some hjf
    have hjlen : e.pfx.length = j := by
      rw [hpfx, List.length_take]
      omega
    refine ⟨hmem, by rw [hjlen]; exact hpfx, hexp, fun e' he' hp' hexp' => ?_⟩
    by_contra hcontra
    have hj' : e'.pfx.length ≤ n.length := hlenle e' hp'
    have hfe' : findExactMatch t now (n.take e'.pfx.length) = some e' := by
      rw [← hp']
      exact findExactMatch_of_entry hnd he' hexp'
    have := hmax e'.pfx.length (by omega) hj'
    rw [this] at hfe'
    cases hfe'
  · rw [findLongestPrefixMatch_eq_scanPrefixes] at hnone
    have hall := scanPrefixes_none hnone
    have hfe : findExactMatch t now (n.take e.pfx.length) = some e := by
      rw [← hp]
      exact findExactMatch_of_entry hnd he hexp
    rw [hall e.pfx.length (hlenle e hp)] at hfe
    cases hfe
  · rw [findLongestPrefixMatch_eq_scanPrefixes] at hsome
    obtain ⟨j, hj, hjf, hmax⟩ := scanPrefixes_some hsome
    have hexp := (findExactMatch_some hjf).2.2
    unfold TfibEntry.isExpired at hexp
    simp at hexp
    omega

/-- C2 witness: at time 100 an expired exact entry for the full name is
skipped; the lookup must not return it (third conjunct), and a non-expired
shorter entry makes the lookup succeed (second conjunct). -/
theorem C2_lpm_correct_witness :
    findLongestPrefixMatch [⟨[1, 2], 7, 1, 5, 50⟩, ⟨[1], 8, 2, 6, 900⟩] 100 [1, 2]
      ≠ some ⟨[1, 2], 7, 1, 5, 50⟩
    ∧ findLongestPrefixMatch [⟨[1, 2], 7, 1, 5, 50⟩, ⟨[1], 8, 2, 6, 900⟩] 100 [1, 2]
      ≠ none :=
  ⟨(C2_lpm_correct [⟨[1, 2], 7, 1, 5, 50⟩, ⟨[1], 8, 2, 6, 900⟩] 100 [1, 2]
      (by decide)).2.2 ⟨[1, 2], 7, 1, 5, 50⟩ (by decide) (by decide),
   (C2_lpm_correct [⟨[1, 2], 7, 1, 5, 50⟩, ⟨[1], 8, 2, 6, 900⟩] 100 [1, 2]
      (by decide)).2.1 ⟨[1], 8, 2, 6, 900⟩ (by decide) (by decide) (by decide)⟩

/-! ## Flood controller

Source: `src/NFD/daemon/fw/optoflood-forwarder-extension.cpp`,
`Forwarder::handleOptoFloodData` (lines 29-131).  The forwarder state is the
TFIB, the flood-id dedup cache (`std::map<uint64_t, TimePoint>`, embedded as
a key-unique association list), and the rate-limit window.  Faces carry an id
and an UP flag; `onOutgoingData` copies are returned as a list of
(face id, Data) pairs. -/

def OPTOFLOOD_DEFAULT_HOP_LIMIT : Nat := 3
def OPTOFLOOD_RATE_LIMIT_PER_SECOND : Nat := 100
def OPTOFLOOD_RATE_WINDOW : Nat := 1000

/-- The 5-second flood-id retention used at line 58 (`now - it->second > 5_s`),
in milliseconds. -/
def FLOOD_ID_TTL : Nat := 5000

structure Face where
  id : Nat
  up : Bool
deriving DecidableEq, Repr

structure DataPkt where
  name : Name
  metaInfo : MetaInfo
  hopLimitTag : Option Nat
deriving DecidableEq, Repr

structure FwState where
  tfib : Tfib
  floodIdCache : List (Nat × Nat)
  floodPacketCount : Nat
  floodRateWindowStart : Nat
deriving DecidableEq, Repr

/-- Model of `m_floodIdCache.find(id)` (line 46). -/
def floodCacheFind (cache : List (Nat × Nat)) (fid : Nat) : Option (Nat × Nat) :=
  cache.find? (fun e => e.1 == fid)

/-- Lines 53-63: `m_floodIdCache[*floodId] = now` (the id is known absent
here), then the purge loop erasing every entry with `now - firstSeen > 5_s`. -/
def floodCacheRemember (cache : List (Nat × Nat)) (fid now : Nat) : List (Nat × Nat) :=
  (cache ++ [(fid, now)]).filter (fun e => decide (now - e.2 ≤ FLOOD_ID_TTL))

/-- Model of `Forwarder::shouldUseGuidedFlooding` (lines 209-219): the stub always
returns true, so the trace hint never filters any face. -/
def shouldUseGuidedFlooding (_face : Face) (_traceHint : List Nat) : Bool := true

/-- The egress loop of `handleOptoFloodData` (lines 100-127): every face other
than the ingress that is UP receives a copy of the Data whose hop-limit tag is
set to `hl`.  The trace-hint branch (lines 112-115) only logs — with
`shouldUseGuidedFlooding` constantly true it never skips a face — so it does
not appear here. -/
def emitCopies (faceTable : List Face) (data : DataPkt) (ingress hl : Nat) :
    List (Nat × DataPkt) :=
  faceTable.filterMap (fun f =>
    if f.id == ingress then none
    else if !f.up then none
    else some (f.id, { data with hopLimitTag := some hl }))

/-- Model of `Forwarder::handleOptoFloodData` (lines 29-131) as a pure function of the
face table, state, current time, packet and ingress face id, returning the new
state and the flooded copies.  Control flow, in source order: missing-field
drop (39-42), duplicate drop (46-51), cache remember and purge (53-63), TFIB
insert (65-67), rate-window reset and admission (73-83), hop limit from the
tag with decrement — or the default 3, undecremented, when the tag is absent
(86-97), then the egress loop. -/
def handleOptoFloodData (faceTable : List Face) (st : FwState) (now : Nat)
    (data : DataPkt) (ingress : Nat) : FwState × List (Nat × DataPkt) :=
  match getFloodId data.metaInfo, getNewFaceSeq data.metaInfo with
  | some floodId, some newFaceSeq =>
    if (floodCacheFind st.floodIdCache floodId).isSome then
      (st, [])
    else
      let cache := floodCacheRemember st.floodIdCache floodId now
      let tfib := (tfibInsert st.tfib now data.name.dropLast ingress newFaceSeq floodId).1
      let cw :=
        if now - st.floodRateWindowStart > OPTOFLOOD_RATE_WINDOW
        then (0, now) else (st.floodPacketCount, st.floodRateWindowStart)
      if OPTOFLOOD_RATE_LIMIT_PER_SECOND ≤ cw.1 then
        (⟨tfib, cache, cw.1, cw.2⟩, [])
      else
        let st' : FwState := ⟨tfib, cache, cw.1 + 1, cw.2⟩
        match data.hopLimitTag with
        | some 0 => (st', [])
        | some (v + 1) => (st', emitCopies faceTable data ingress v)
        | none => (st', emitCopies faceTable data ingress OPTOFLOOD_DEFAULT_HOP_LIMIT)
  | _, _ => (st, [])

/-- C9: a mobility Data whose metadata lacks the FloodId TLV (202) or the
NewFaceSeq TLV (203) is dropped with no state change and no copies. -/
theorem C9_missingField_drop (ft : List Face) (st : FwState) (now : Nat)
    (data : DataPkt) (ingress : Nat)
    (h : findAppMetaInfo data.metaInfo 202 = none ∨ findAppMetaInfo data.metaInfo 203 = none) :
    handleOptoFloodData ft st now data ingress = (st, []) := by
  have h1 : getFloodId data.metaInfo = none ∨ getNewFaceSeq data.metaInfo = none := by
    rcases h with h | h
    · left; simp [getFloodId, h]
    · right; simp [getNewFaceSeq, h]
  rcases h1 with h1 | h1
  · simp [handleOptoFloodData, h1]
  · cases hf : getFloodId data.metaInfo with
    | none => simp [handleOptoFloodData, hf]
    | some fid => simp [handleOptoFloodData, hf, h1]

/-- C9 witness: a Data with empty metadata on a two-face forwarder. -/
theorem C9_missingField_drop_witness :
    handleOptoFloodData [⟨1, true⟩, ⟨2, true⟩] ⟨[], [], 0, 0⟩ 50 ⟨[1, 2], [], none⟩ 1
      = (⟨[], [], 0, 0⟩, []) :=
  C9_missingField_drop [⟨1, true⟩, ⟨2, true⟩] ⟨[], [], 0, 0⟩ 50 ⟨[1, 2], [], none⟩ 1
    (Or.inl (by decide))

theorem find?_filter_of_none {α : Type} (p q : α → Bool) (l : List α)
    (h : l.find? q = none) : (l.filter p).find? q = none := by
  rw [List.find?_eq_none] at h ⊢
  exact fun a ha => h a (List.mem_of_mem_filter ha)

theorem floodCacheFind_remember (cache : List (Nat × Nat)) (fid now : Nat)
    (h : floodCacheFind cache fid = none) :
    floodCacheFind (floodCacheRemember cache fid now) fid = some (fid, now) := by
  unfold floodCacheRemember floodCacheFind
  rw [List.filter_append, List.find?_append]
  rw [find?_filter_of_none _ _ _ h]
  simp [FLOOD_ID_TTL]

/-- Duplicate drop (lines 46-51): when the FloodId is already cached, the Data
is dropped before any state change — the returned state is the input state and
no copies are emitted.  The cache age is not consulted and no purge runs. -/
theorem handleOptoFloodData_duplicate (ft : List Face) (st : FwState) (now : Nat)
    (data : DataPkt) (ingress fid : Nat)
    (h1 : getFloodId data.metaInfo = some fid)
    (h2 : (getNewFaceSeq data.metaInfo).isSome = true)
    (hdup : (floodCacheFind st.floodIdCache fid).isSome = true) :
    handleOptoFloodData ft st now data ingress = (st, []) := by
  obtain ⟨seq, hseq⟩ := Option.isSome_iff_exists.mp h2
  simp [handleOptoFloodData, h1, hseq, hdup]

/-- A non-duplicate arrival installs the TFIB entry and records the FloodId in
the dedup cache, on every continuation (rate-limited, hop-exhausted or
flooded). -/
theorem handleOptoFloodData_fresh (ft : List Face) (st : FwState) (now : Nat)
    (data : DataPkt) (ingress fid seq : Nat)
    (h1 : getFloodId data.metaInfo = some fid)
    (h2 : getNewFaceSeq data.metaInfo = some seq)
    (hfresh : floodCacheFind st.floodIdCache fid = none) :
    (handleOptoFloodData ft st now data ingress).1.floodIdCache
      = floodCacheRemember st.floodIdCache fid now
    ∧ (handleOptoFloodData ft st now data ingress).1.tfib
      = (tfibInsert st.tfib now data.name.dropLast ingress seq fid).1 := by
  have hns : (floodCacheFind st.floodIdCache fid).isSome = false := by
    rw [hfresh]; rfl
  simp only [handleOptoFloodData, h1, h2, hns, Bool.false_eq_true, if_false]
  constructor <;> (repeat' split) <;> rfl

/-- A trace of Data arrivals: each element is (arrival time, packet, ingress
face id); arrivals are processed by `handleOptoFloodData` in order and the
emitted copies are concatenated. -/
def processTrace (ft : List Face) (st : FwState) :
    List (Nat × DataPkt × Nat) → FwState × List (Nat × DataPkt)
  | [] => (st, [])
  | a :: rest =>
    let step := handleOptoFloodData ft st a.1 a.2.1 a.2.2
    let restRes := processTrace ft step.1 rest
    (restRes.1, step.2 ++ restRes.2)

theorem processTrace_allDuplicate (ft : List Face) (fid : Nat) :
    ∀ (rest : List (Nat × DataPkt × Nat)) (st : FwState),
      (∀ a ∈ rest, getFloodId a.2.1.metaInfo = some fid ∧
        (getNewFaceSeq a.2.1.metaInfo).isSome = true) →
      (floodCacheFind st.floodIdCache fid).isSome = true →
      processTrace ft st rest = (st, []) := by
  intro rest
  induction rest with
  | nil => intro st _ _; rfl
  | cons a rest ih =>
    intro st hall hdup
    have hstep := handleOptoFloodData_duplicate ft st a.1 a.2.1 a.2.2 fid
      (hall a (List.mem_cons_self a rest)).1 (hall a (List.mem_cons_self a rest)).2 hdup
    have htail := ih st (fun x hx => hall x (List.mem_cons_of_mem a hx)) hdup
    simp [processTrace, hstep, htail]

/-- C3: per-FloodId single mutation.  For any non-empty sequence of mobility
Data arrivals that share one FloodId (all carrying FloodId and NewFaceSeq),
starting from a state where that FloodId is not yet cached: the whole trace's
result equals the first arrival's result — every later arrival is dropped as a
duplicate with no state change and no copies — and the first arrival's state
carries exactly one TFIB insert for the Data's name minus its last
component. -/
theorem C3_dedup_single_mutation (ft : List Face) (st0 : FwState) (fid : Nat)
    (arr : Nat × DataPkt × Nat) (rest : List (Nat × DataPkt × Nat))
    (hall : ∀ a ∈ arr :: rest, getFloodId a.2.1.metaInfo = some fid ∧
      (getNewFaceSeq a.2.1.metaInfo).isSome = true)
    (hfresh : floodCacheFind st0.floodIdCache fid = none) :
    processTrace ft st0 (arr :: rest) = handleOptoFloodData ft st0 arr.1 arr.2.1 arr.2.2
    ∧ (∀ seq, getNewFaceSeq arr.2.1.metaInfo = some seq →
        (handleOptoFloodData ft st0 arr.1 arr.2.1 arr.2.2).1.tfib
          = (tfibInsert st0.tfib arr.1 arr.2.1.name.dropLast arr.2.2 seq fid).1) := by
  obtain ⟨seq, hseq⟩ :=
    Option.isSome_iff_exists.mp (hall arr (List.mem_cons_self arr rest)).2
  have hf1 := (hall arr (List.mem_cons_self arr rest)).1
  have hfreshres := handleOptoFloodData_fresh ft st0 arr.1 arr.2.1 arr.2.2 fid seq
    hf1 hseq hfresh
  have hcached : (floodCacheFind
      (handleOptoFloodData ft st0 arr.1 arr.2.1 arr.2.2).1.floodIdCache fid).isSome = true := by
    rw [hfreshres.1, floodCacheFind_remember st0.floodIdCache fid arr.1 hfresh]
    rfl
  have htail := processTrace_allDuplicate ft fid rest
    (handleOptoFloodData ft st0 arr.1 arr.2.1 arr.2.2).1
    (fun x hx => hall x (List.mem_cons_of_mem arr hx)) hcached
  constructor
  · simp [processTrace, htail]
  · intro seq' hseq'
    rw [hseq'] at hseq
    cases hseq
    exact hfreshres.2

/-- C3 witness: two arrivals of FloodId 42 (seq 7 then seq 9) on an
empty-cache forwarder with two UP faces; the trace collapses to the first
arrival and the TFIB reflects the single insert. -/
theorem C3_dedup_single_mutation_witness :
    processTrace [⟨1, true⟩, ⟨2, true⟩] ⟨[], [], 0, 0⟩
        [(10, ⟨[1, 2], [⟨202, [42]⟩, ⟨203, [7]⟩], none⟩, 1),
         (20, ⟨[1, 2], [⟨202, [42]⟩, ⟨203, [9]⟩], none⟩, 2)]
      = handleOptoFloodData [⟨1, true⟩, ⟨2, true⟩] ⟨[], [], 0, 0⟩ 10
          ⟨[1, 2], [⟨202, [42]⟩, ⟨203, [7]⟩], none⟩ 1
    ∧ (∀ seq, getNewFaceSeq [⟨202, [42]⟩, ⟨203, [7]⟩] = some seq →
        (handleOptoFloodData [⟨1, true⟩, ⟨2, true⟩] ⟨[], [], 0, 0⟩ 10
          ⟨[1, 2], [⟨202, [42]⟩, ⟨203, [7]⟩], none⟩ 1).1.tfib
          = (tfibInsert [] 10 [1] 1 seq 42).1) :=
  C3_dedup_single_mutation [⟨1, true⟩, ⟨2, true⟩] ⟨[], [], 0, 0⟩ 42
    (10, ⟨[1, 2], [⟨202, [42]⟩, ⟨203, [7]⟩], none⟩, 1)
    [(20, ⟨[1, 2], [⟨202, [42]⟩, ⟨203, [9]⟩], none⟩, 2)]
    (by decide) (by decide)

/-! ### Flood-id cache bounds (claim C7) -/

/-- The cache contents after `n` distinct FloodIds `0, 1, ..., n-1` all arrive
at time 0, each going through the duplicate check and, when fresh, the
remember-and-purge path of `handleOptoFloodData` (lines 46-63). -/
def floodCacheInsertMany (n : Nat) : List (Nat × Nat) :=
  (List.range n).foldl
    (fun c i => if (floodCacheFind c i).isSome then c else floodCacheRemember c i 0) []

theorem floodCacheInsertMany_eq (n : Nat) :
    floodCacheInsertMany n = (List.range n).map (fun i => (i, 0)) := by
  induction n with
  | zero => rfl
  | succ n ih =>
    unfold floodCacheInsertMany at ih ⊢
    rw [List.range_succ, List.foldl_append, ih]
    have hfind : floodCacheFind ((List.range n).map (fun i => (i, 0))) n = none := by
      rw [floodCacheFind, List.find?_eq_none]
      intro e he
      simp only [List.mem_map, List.mem_range] at he
      obtain ⟨i, hi, rfl⟩ := he
      simp
      omega
    have hns : (floodCacheFind ((List.range n).map (fun i => (i, 0))) n).isSome = false := by
      rw [hfind]; rfl
    simp only [List.foldl_cons, List.foldl_nil, hns, Bool.false_eq_true, if_false]
    rw [floodCacheRemember, List.filter_eq_self.mpr]
    · simp
    · intro a _
      simp [FLOOD_ID_TTL]

/-- C7 counterexample: 4097 distinct FloodIds arriving within the retention
window leave 4097 entries in the cache — the claimed MAX_FLOOD_IDS = 4096
ceiling is not enforced and no oldest-entry eviction exists in the code. -/
theorem C7_counterexample :
    (floodCacheInsertMany 4097).length = 4097 ∧ ¬((4097 : Nat) ≤ 4096) := by
  constructor
  · rw [floodCacheInsertMany_eq]
    simp
  · omega

/-- C7 (amended): after each remember of a fresh FloodId at time `now`, the
cache keeps the new id stamped `now`, contains no entry first-seen more than
FLOOD_ID_TTL before `now`, and retains every previously cached id still inside
the window; there is no size ceiling (see the counterexample — the purge is
age-based only). -/
theorem C7_cache_window (cache : List (Nat × Nat)) (fid now : Nat) :
    (fid, now) ∈ floodCacheRemember cache fid now
    ∧ (∀ e ∈ floodCacheRemember cache fid now, now - e.2 ≤ FLOOD_ID_TTL)
    ∧ (∀ e ∈ cache, now - e.2 ≤ FLOOD_ID_TTL → e ∈ floodCacheRemember cache fid now) := by
  refine ⟨?_, fun e he => ?_, fun e he hw => ?_⟩
  · simp [floodCacheRemember, List.mem_filter]
  · rw [floodCacheRemember] at he
    exact of_decide_eq_true (List.mem_filter.mp he).2
  · rw [floodCacheRemember]
    rw [List.mem_filter]
    exact ⟨List.mem_append_left _ he, decide_eq_true hw⟩

theorem emitCopies_hopTag (ft : List Face) (data : DataPkt) (ingress hl : Nat) :
    ∀ e ∈ emitCopies ft data ingress hl, e.2.hopLimitTag = some hl := by
  intro e he
  rw [emitCopies, List.mem_filterMap] at he
  obtain ⟨f, _, hf⟩ := he
  split at hf
  · cases hf
  · split at hf
    · cases hf
    · cases hf
      rfl

/-- C4 counterexample: a mobility Data with no hop-limit tag, on a fresh
two-face forwarder, is flooded with the tag set to 3
(`OPTOFLOOD_DEFAULT_HOP_LIMIT`, never decremented on this path), not to
`hopLimit − 1 = 2` as the claim states. -/
theorem C4_counterexample :
    ((handleOptoFloodData [⟨1, true⟩, ⟨2, true⟩] ⟨[], [], 0, 0⟩ 0
        ⟨[1, 2], [⟨202, [7]⟩, ⟨203, [5]⟩], none⟩ 1).2.map (fun e => e.2.hopLimitTag)
      = [some 3])
    ∧ some (3 : Nat) ≠ some (OPTOFLOOD_DEFAULT_HOP_LIMIT - 1) := by
  constructor
  · decide
  · decide

/-- C4 (amended): the hop limit is taken from the packet's hop-limit tag when
present, else DEFAULT_HOP_LIMIT = 3.  A tag of 0 suppresses all copies.  When
the tag is present with value v > 0 every emitted copy carries the tag v − 1;
when the tag is absent every emitted copy carries the tag 3, undecremented. -/
theorem C4_hopLimit (ft : List Face) (st : FwState) (now : Nat)
    (data : DataPkt) (ingress : Nat) :
    (data.hopLimitTag = some 0 → (handleOptoFloodData ft st now data ingress).2 = [])
    ∧ (∀ e ∈ (handleOptoFloodData ft st now data ingress).2,
        e.2.hopLimitTag = some (match data.hopLimitTag with
          | none => OPTOFLOOD_DEFAULT_HOP_LIMIT
          | some v => v - 1)) := by
  cases hf : getFloodId data.metaInfo with
  | none =>
    refine ⟨fun _ => by simp [handleOptoFloodData, hf], fun e he => ?_⟩
    simp [handleOptoFloodData, hf] at he
  | some fid =>
    cases hs : getNewFaceSeq data.metaInfo with
    | none =>
      refine ⟨fun _ => by simp [handleOptoFloodData, hf, hs], fun e he => ?_⟩
      simp [handleOptoFloodData, hf, hs] at he
    | some seq =>
      by_cases hdup : (floodCacheFind st.floodIdCache fid).isSome = true
      · refine ⟨fun _ => by simp [handleOptoFloodData, hf, hs, hdup], fun e he => ?_⟩
        simp [handleOptoFloodData, hf, hs, hdup] at he
      · have hdup' : (floodCacheFind st.floodIdCache fid).isSome = false :=
          Bool.eq_false_iff.mpr hdup
        have hsnd : (handleOptoFloodData ft st now data ingress).2 = []
            ∨ ((handleOptoFloodData ft st now data ingress).2
                = emitCopies ft data ingress (match data.hopLimitTag with
                    | none => OPTOFLOOD_DEFAULT_HOP_LIMIT
                    | some v => v - 1)
               ∧ data.hopLimitTag ≠ some 0) := by
          simp only [handleOptoFloodData, hf, hs, hdup', Bool.false_eq_true, if_false]
          split <;>
          · split
            · exact Or.inl rfl
            · split
              · exact Or.inl rfl
              · rename_i htag
                exact Or.inr ⟨by rw [htag]; simp, by rw [htag]; simp⟩
              · rename_i htag
                exact Or.inr ⟨by rw [htag], by rw [htag]; simp⟩
        constructor
        · intro h0
          rcases hsnd with hsnd | hsnd
          · exact hsnd
          · exact absurd h0 hsnd.2
        · intro e he
          rcases hsnd with hsnd | hsnd
          · rw [hsnd] at he
            cases he
          · rw [hsnd.1] at he
            exact emitCopies_hopTag ft data ingress _ e he

/-- C4 witness: a Data tagged 5 produces copies tagged 4 (theorem applied at
the concrete emission on face 2), and a Data tagged 0 produces none. -/
theorem C4_hopLimit_witness :
    ((2 : Nat), (⟨[1, 2], [⟨202, [7]⟩, ⟨203, [5]⟩], some 4⟩ : DataPkt)).2.hopLimitTag
      = some 4
    ∧ (handleOptoFloodData [⟨1, true⟩, ⟨2, true⟩] ⟨[], [], 0, 0⟩ 0
        ⟨[1, 2], [⟨202, [7]⟩, ⟨203, [5]⟩], some 0⟩ 1).2 = [] :=
  ⟨(C4_hopLimit [⟨1, true⟩, ⟨2, true⟩] ⟨[], [], 0, 0⟩ 0
      ⟨[1, 2], [⟨202, [7]⟩, ⟨203, [5]⟩], some 5⟩ 1).2
      (2, ⟨[1, 2], [⟨202, [7]⟩, ⟨203, [5]⟩], some 4⟩) (by decide),
   (C4_hopLimit [⟨1, true⟩, ⟨2, true⟩] ⟨[], [], 0, 0⟩ 0
      ⟨[1, 2], [⟨202, [7]⟩, ⟨203, [5]⟩], some 0⟩ 1).1 rfl⟩

/-- C5: when the rate limit rejects a fresh mobility Data (window not yet
elapsed and the window counter at the limit), only the outgoing copies are
suppressed — the TFIB insert has already happened and the dedup cache has
already recorded the FloodId with the arrival time. -/
theorem C5_rateLimit_frame (ft : List Face) (st : FwState) (now : Nat)
    (data : DataPkt) (ingress fid seq : Nat)
    (h1 : getFloodId data.metaInfo = some fid)
    (h2 : getNewFaceSeq data.metaInfo = some seq)
    (hfresh : floodCacheFind st.floodIdCache fid = none)
    (hwin : now - st.floodRateWindowStart ≤ OPTOFLOOD_RATE_WINDOW)
    (hcount : OPTOFLOOD_RATE_LIMIT_PER_SECOND ≤ st.floodPacketCount) :
    (handleOptoFloodData ft st now data ingress).2 = []
    ∧ (handleOptoFloodData ft st now data ingress).1.tfib
      = (tfibInsert st.tfib now data.name.dropLast ingress seq fid).1
    ∧ floodCacheFind (handleOptoFloodData ft st now data ingress).1.floodIdCache fid
      = some (fid, now) := by
  have hns : (floodCacheFind st.floodIdCache fid).isSome = false := by
    rw [hfresh]; rfl
  have hw : ¬(now - st.floodRateWindowStart > OPTOFLOOD_RATE_WINDOW) := by omega
  simp only [handleOptoFloodData, h1, h2, hns, Bool.false_eq_true, if_false,
    if_neg hw, if_pos hcount]
  exact ⟨by trivial, by trivial, floodCacheFind_remember _ _ _ hfresh⟩

/-- C5 witness: a forwarder whose window counter already reached 100 at the
arrival of a fresh FloodId 7 — no copies, but the TFIB entry and the cache
record appear. -/
theorem C5_rateLimit_frame_witness :
    (handleOptoFloodData [⟨1, true⟩, ⟨2, true⟩] ⟨[], [], 100, 0⟩ 500
        ⟨[1, 2], [⟨202, [7]⟩, ⟨203, [5]⟩], none⟩ 1).2 = []
    ∧ (handleOptoFloodData [⟨1, true⟩, ⟨2, true⟩] ⟨[], [], 100, 0⟩ 500
        ⟨[1, 2], [⟨202, [7]⟩, ⟨203, [5]⟩], none⟩ 1).1.tfib
      = (tfibInsert [] 500 [1] 1 5 7).1
    ∧ floodCacheFind (handleOptoFloodData [⟨1, true⟩, ⟨2, true⟩] ⟨[], [], 100, 0⟩ 500
        ⟨[1, 2], [⟨202, [7]⟩, ⟨203, [5]⟩], none⟩ 1).1.floodIdCache 7
      = some (7, 500) :=
  C5_rateLimit_frame [⟨1, true⟩, ⟨2, true⟩] ⟨[], [], 100, 0⟩ 500
    ⟨[1, 2], [⟨202, [7]⟩, ⟨203, [5]⟩], none⟩ 1 7 5
    (by decide) (by decide) (by decide) (by decide) (by decide)

/-- C7 witness: remembering FloodId 2 at time 3000 over a cache holding
FloodId 1 first seen at time 0 keeps both entries (both within the 5 s
window). -/
theorem C7_cache_window_witness :
    ((2 : Nat), (3000 : Nat)) ∈ floodCacheRemember [(1, 0)] 2 3000
    ∧ ((1 : Nat), (0 : Nat)) ∈ floodCacheRemember [(1, 0)] 2 3000 :=
  ⟨(C7_cache_window [(1, 0)] 2 3000).1,
   (C7_cache_window [(1, 0)] 2 3000).2.2 (1, 0) (by decide) (by decide)⟩

/-! ## Interest flooding and the CS-miss hook

Source: `Forwarder::handleInterestFlooding` (lines 149-207) and
`Forwarder::onContentStoreMissWithOptoFlood` (lines 221-274).  Interests carry
a name, the presence bit of ApplicationParameters (`params.hasWire()`), and an
optional hop limit.  A PIT entry is abstracted to the set of face ids holding
an in-record. -/

structure InterestPkt where
  name : Name
  hasAppParams : Bool
  hopLimit : Option Nat
deriving DecidableEq, Repr

structure PitEntryM where
  inRecords : List Nat
deriving DecidableEq, Repr

/-- External `pit::Entry::insertOrUpdateInRecord`, abstracted to the set of
faces holding an in-record. -/
def pitInsertOrUpdateInRecord (p : PitEntryM) (face : Nat) : PitEntryM :=
  if face ∈ p.inRecords then p else ⟨p.inRecords ++ [face]⟩

/-- Model of `Forwarder::shouldFloodInterest` (lines 133-147): true iff the Interest
has ApplicationParameters. -/
def shouldFloodInterest (i : InterestPkt) : Bool := i.hasAppParams

/-- Model of `Forwarder::handleInterestFlooding` (lines 149-207).  The local traceHint
stays `nullopt` (the parameter parse at lines 157-166 is a stub), so the
guided-flooding filter never skips a face.  A zero hop limit drops; otherwise
each UP face other than the ingress gets a copy whose hop limit is the
packet's minus one, or the default 3 when absent.  The PIT entry is passed to
each `onOutgoingInterest` call but no in-record is inserted anywhere in this
function: the returned PIT entry is the input one. -/
def handleInterestFlooding (faceTable : List Face) (interest : InterestPkt)
    (ingress : Nat) (pit : PitEntryM) : PitEntryM × List (Nat × InterestPkt) :=
  if interest.hopLimit = some 0 then (pit, [])
  else
    (pit,
     faceTable.filterMap (fun f =>
       if f.id == ingress then none
       else if !f.up then none
       else some (f.id, { interest with hopLimit :=
         match interest.hopLimit with
         | some h => some (h - 1)
         | none => some OPTOFLOOD_DEFAULT_HOP_LIMIT })))

/-- Continuation of the CS-miss hook when the TFIB does not forward: on a FIB
miss with flood parameters, delegate to `handleInterestFlooding` (lines
246-250); otherwise the normal path inserts the in-record (line 261) and
hands the Interest to the external strategy (line 273), which contributes no
emissions at this layer. -/
def csMissRest (faceTable : List Face) (fibHasNextHops : Bool)
    (interest : InterestPkt) (ingress : Nat) (pit : PitEntryM) :
    PitEntryM × List (Nat × InterestPkt) :=
  if !fibHasNextHops && shouldFloodInterest interest then
    handleInterestFlooding faceTable interest ingress pit
  else
    (pitInsertOrUpdateInRecord pit ingress, [])

/-- Model of `Forwarder::onContentStoreMissWithOptoFlood` (lines 221-274): a TFIB hit
(non-expired, double-checked at line 232) records the PIT in-record and
forwards to the entry's face; otherwise the FIB result decides between
flooding and the normal strategy path. -/
def onContentStoreMissWithOptoFlood (faceTable : List Face) (tfib : Tfib)
    (now : Nat) (fibHasNextHops : Bool) (interest : InterestPkt) (ingress : Nat)
    (pit : PitEntryM) : PitEntryM × List (Nat × InterestPkt) :=
  match findLongestPrefixMatch tfib now interest.name with
  | some e =>
    if e.isExpired now then csMissRest faceTable fibHasNextHops interest ingress pit
    else (pitInsertOrUpdateInRecord pit ingress, [(e.face, interest)])
  | none => csMissRest faceTable fibHasNextHops interest ingress pit

theorem handleInterestFlooding_pit_unchanged (ft : List Face)
    (interest : InterestPkt) (ingress : Nat) (pit : PitEntryM) :
    (handleInterestFlooding ft interest ingress pit).1 = pit := by
  unfold handleInterestFlooding
  split <;> rfl

theorem findLongestPrefixMatch_nil (now : Nat) (n : Name) :
    findLongestPrefixMatch [] now n = none := by
  rw [findLongestPrefixMatch_eq_scanPrefixes]
  suffices h : ∀ k, scanPrefixes [] now n k = none from h n.length
  intro k
  induction k with
  | zero => rfl
  | succ k ih => simp [scanPrefixes, findExactMatch, tfibFind, ih]

/-- C6: evidence against the claim — a flood-flagged Interest with no hop
limit arriving on face 1 of a two-face forwarder with empty TFIB and a FIB
miss is flooded on face 2 (hop limit 3), yet the PIT entry comes back with no
in-record at all: neither `handleInterestFlooding` nor the CS-miss flooding
branch that calls it ever inserts the ingress in-record before the
emission. -/
theorem C6_pit_record_missing :
    handleInterestFlooding [⟨1, true⟩, ⟨2, true⟩] ⟨[1, 2], true, none⟩ 1 ⟨[]⟩
      = (⟨[]⟩, [(2, ⟨[1, 2], true, some 3⟩)])
    ∧ onContentStoreMissWithOptoFlood [⟨1, true⟩, ⟨2, true⟩] [] 0 false
        ⟨[1, 2], true, none⟩ 1 ⟨[]⟩
      = (⟨[]⟩, [(2, ⟨[1, 2], true, some 3⟩)]) := by
  constructor
  · rfl
  · rw [onContentStoreMissWithOptoFlood, findLongestPrefixMatch_nil]
    rfl

end Flooding
